import Mathlib

set_option autoImplicit false

/-
Shallow embedding of the key-path resolution engine and type-coercion layer of
the config repository (source files: src/unnamed/part_000 and src/config_get.go,
both in Go package "config"; the two files hold two revisions of the same
accessor family, and both are embedded where they differ).

Modelling conventions:
- Go interface{} configuration values are the inductive type Value; the Go map
  types are association lists (first matching key wins on lookup, assignment
  overwrites in place, as for a Go map).
- Go runtime panics (here: out-of-range slice indexing) are the explicit
  result constructors GetResult.fault / PRes.fault, so that "never causes a
  runtime fault" is a statable property.
- The process environment read by os.Getenv is an explicit field (env) of
  Config; Go's os.Getenv returns "" for an unset variable, modelled by
  lookup-with-default "".
- Machine integers are Int; strconv.Atoi parses into Int and then applies the
  int64 range check (ErrRange counts as a parse failure, as at every call
  site of the source).
- The nil interface value is the constructor Value.vNil: the older Get of
  src/config_get.go returns its never-reassigned named result (nil) with
  ok still true on the bad-index paths, which the embedding must express.
- Floating point raw values are not modelled (no claim concerns them).
- The sync.RWMutex and the error-accumulation log (addError / addErrorf) are
  omitted: locking and error bookkeeping are outside the specified core and
  neither changes any value an accessor returns.
- The ghost field walks counts invocations of the path resolver from the
  accessors, the "resolution counter" observable that the spec uses for the
  cache idempotence property.
-/

/-- A dynamically typed configuration value (Go interface{}). -/
inductive Value where
  | vNil
  | vBool (b : Bool)
  | vInt (n : Int)
  | vStr (s : String)
  | vStrMap (m : List (String × String))
  | vIntMap (m : List (String × Int))
  | vMapS (m : List (String × Value))
  | vMapA (m : List (Value × Value))
  | vIntArr (xs : List Int)
  | vStrArr (xs : List String)
  | vArr (xs : List Value)

/-- Result of the path resolver: found value, ok=false, or a Go runtime panic. -/
inductive GetResult where
  | found (value : Value)
  | notFound
  | fault

/-- Result of a typed accessor: the Go (value, ok) pair, or a propagated panic. -/
inductive PRes (α : Type) where
  | ret (value : α) (ok : Bool)
  | fault

/-- The options read by the accessors (struct Options in the repository). -/
structure Options where
  Readonly : Bool
  EnableCache : Bool
  ParseEnv : Bool

/-- The Config instance: the value store, options, the process environment,
the three per-kind result caches, and the ghost resolution counter. -/
structure Config where
  data : List (String × Value)
  opts : Options
  env : List (String × String)
  strCache : List (String × String)
  sArrCache : List (String × List String)
  sMapCache : List (String × List (String × String))
  walks : Nat

/-- Go map lookup on a string-keyed association list. -/
def lookupStr {α : Type} : List (String × α) → String → Option α
  | [], _ => none
  | (k2, v) :: rest, k => if k2 = k then some v else lookupStr rest k

/-- Go map assignment m[k] = v on an association list. -/
def mapSet {α : Type} : List (String × α) → String → α → List (String × α)
  | [], k, v => [(k, v)]
  | (k2, v2) :: rest, k, v =>
    if k2 = k then (k, v) :: rest else (k2, v2) :: mapSet rest k v

/-- Lookup typeData[k] on a map[interface{}]interface{} with a string key k:
an entry matches exactly when its key is the string k. -/
def lookupByStrKey : List (Value × Value) → String → Option Value
  | [], _ => none
  | (Value.vStr k2, v) :: rest, k => if k2 = k then some v else lookupByStrKey rest k
  | _ :: rest, k => lookupByStrKey rest k

/-- ASCII whitespace, the subset of unicode.IsSpace exercised by key strings. -/
def isSpaceChar (ch : Char) : Bool :=
  ch = ' ' || ch = '\t' || ch = '\n' || ch = '\r'

/-- strings.Trim: drop characters satisfying p from both ends. -/
def trimCharsList (p : Char → Bool) (l : List Char) : List Char :=
  ((l.dropWhile p).reverse.dropWhile p).reverse

/-- strings.Trim on a String. -/
def trimChars (p : Char → Bool) (s : String) : String :=
  String.mk (trimCharsList p s.data)

/-- formatKey: strings.Trim(strings.TrimSpace(key), "."). -/
def formatKey (key : String) : String :=
  trimChars (fun ch => ch = '.') (trimChars isSpaceChar key)

/-- strings.Split helper: split a character list on a separator character. -/
def splitChAux (sep : Char) : List Char → List Char → List (List Char)
  | [], acc => [acc.reverse]
  | ch :: rest, acc =>
    if ch = sep then acc.reverse :: splitChAux sep rest []
    else splitChAux sep rest (ch :: acc)

/-- strings.Split(key, "."). -/
def splitDots (s : String) : List String :=
  (splitChAux '.' s.data []).map String.mk

/-- strings.SplitN(s, sep, 2): split on the first occurrence only. -/
def splitN2Aux (sep : Char) : List Char → List Char → List (List Char)
  | [], acc => [acc.reverse]
  | ch :: rest, acc =>
    if ch = sep then [acc.reverse, rest] else splitN2Aux sep rest (ch :: acc)

/-- strings.SplitN(s, sep, 2) on a character list. -/
def splitN2 (sep : Char) (l : List Char) : List (List Char) :=
  splitN2Aux sep l []

/-- strings.Contains / strings.Index sub != -1 for a substring pattern. -/
def containsSeq (pat : List Char) : List Char → Bool
  | [] => pat.isPrefixOf []
  | l@(_ :: rest) => pat.isPrefixOf l || containsSeq pat rest

/-- Accumulate the value of a digit run; none when a non-digit appears. -/
def digitsValGo : List Char → Nat → Option Nat
  | [], acc => some acc
  | ch :: rest, acc =>
    if ch.isDigit then digitsValGo rest (acc * 10 + (ch.toNat - '0'.toNat))
    else none

/-- Value of a non-empty all-digit run. -/
def digitsVal (l : List Char) : Option Nat :=
  if l.isEmpty then none else digitsValGo l 0

/-- The numeric value of an optional sign followed by one or more digits. -/
def atoiNoRange? (s : String) : Option Int :=
  match s.data with
  | '+' :: rest => (digitsVal rest).map (fun n => (n : Int))
  | '-' :: rest => (digitsVal rest).map (fun n => -(n : Int))
  | l => (digitsVal l).map (fun n => (n : Int))

/-- strconv.Atoi: optional sign followed by one or more digits, failing with
ErrRange - treated as a plain failure by every call site of the source -
when the value does not fit in int64. -/
def atoi? (s : String) : Option Int :=
  match atoiNoRange? s with
  | none => none
  | some n =>
    if -9223372036854775808 ≤ n ∧ n ≤ 9223372036854775807 then some n else none

/-- Space-join, as fmt's %v does for slice elements. -/
def joinSp : List String → String
  | [] => ""
  | [x] => x
  | x :: y :: rest => x ++ " " ++ joinSp (y :: rest)

/-- fmt %v rendering of map[string]string entries. -/
def sprintStrPairs : List (String × String) → String
  | [] => ""
  | [(k, v)] => k ++ ":" ++ v
  | (k, v) :: p :: rest => k ++ ":" ++ v ++ " " ++ sprintStrPairs (p :: rest)

/-- fmt %v rendering of map[string]int entries. -/
def sprintIntPairs : List (String × Int) → String
  | [] => ""
  | [(k, v)] => k ++ ":" ++ toString v
  | (k, v) :: p :: rest => k ++ ":" ++ toString v ++ " " ++ sprintIntPairs (p :: rest)

mutual

/-- fmt.Sprintf("%v", val): Go's canonical textual rendering.  Scalars render
exactly as in Go; containers render in Go's bracketed shape (entry order is the
list order, where Go sorts map keys - unobservable here, since every property
below either stringifies scalars or only needs that a container rendering never
parses as an integer). -/
def sprintV : Value → String
  | .vNil => "<nil>"
  | .vBool b => if b then "true" else "false"
  | .vInt n => toString n
  | .vStr s => s
  | .vStrMap m => "map[" ++ sprintStrPairs m ++ "]"
  | .vIntMap m => "map[" ++ sprintIntPairs m ++ "]"
  | .vMapS m => "map[" ++ sprintPairsS m ++ "]"
  | .vMapA m => "map[" ++ sprintPairsA m ++ "]"
  | .vIntArr xs => "[" ++ joinSp (xs.map toString) ++ "]"
  | .vStrArr xs => "[" ++ joinSp xs ++ "]"
  | .vArr xs => "[" ++ sprintList xs ++ "]"

/-- fmt %v rendering of []interface{} elements. -/
def sprintList : List Value → String
  | [] => ""
  | [x] => sprintV x
  | x :: y :: rest => sprintV x ++ " " ++ sprintList (y :: rest)

/-- fmt %v rendering of map[string]interface{} entries. -/
def sprintPairsS : List (String × Value) → String
  | [] => ""
  | [(k, v)] => k ++ ":" ++ sprintV v
  | (k, v) :: p :: rest => k ++ ":" ++ sprintV v ++ " " ++ sprintPairsS (p :: rest)

/-- fmt %v rendering of map[interface{}]interface{} entries. -/
def sprintPairsA : List (Value × Value) → String
  | [] => ""
  | [(k, v)] => sprintV k ++ ":" ++ sprintV v
  | (k, v) :: p :: rest => sprintV k ++ ":" ++ sprintV v ++ " " ++ sprintPairsA (p :: rest)

end

/-- Outcome of interpreting a path segment as a sequence index. -/
inductive IdxRes where
  | bad
  | oobFault
  | ok (i : Nat)

/-- The sequence-segment logic shared by the three slice cases of Get:
Atoi the segment; the source guard is (err != nil || len(typeData) < i), and
on passing it the source executes typeData[i], which panics in Go when i < 0
or i = len. -/
def seqIndex (n : Nat) (k : String) : IdxRes :=
  match atoi? k with
  | none => .bad
  | some i =>
    if (n : Int) < i then .bad
    else if 0 ≤ i ∧ i < (n : Int) then .ok i.toNat
    else .oobFault

/-- The child-walk loop of Get in src/unnamed/part_000 (the switch over the
current node, one iteration per remaining path segment).  Note the case list:
map[string]string, map[string]interface{}, map[interface{}]interface{},
[]int, []string, []interface{}; a map[string]int node has no case and falls
to the default (ok=false). -/
def getWalk : Value → List String → GetResult
  | item, [] => .found item
  | item, k :: ks =>
    match item with
    | .vStrMap m =>
      match lookupStr m k with
      | some s => getWalk (.vStr s) ks
      | none => .notFound
    | .vMapS m =>
      match lookupStr m k with
      | some v => getWalk v ks
      | none => .notFound
    | .vMapA m =>
      match lookupByStrKey m k with
      | some v => getWalk v ks
      | none => .notFound
    | .vIntArr xs =>
      match seqIndex xs.length k with
      | .bad => .notFound
      | .oobFault => .fault
      | .ok i => getWalk (.vInt (xs.getD i 0)) ks
    | .vStrArr xs =>
      match seqIndex xs.length k with
      | .bad => .notFound
      | .oobFault => .fault
      | .ok i => getWalk (.vStr (xs.getD i "")) ks
    | .vArr xs =>
      match seqIndex xs.length k with
      | .bad => .notFound
      | .oobFault => .fault
      | .ok i => getWalk (xs.getD i (.vStr "")) ks
    | _ => .notFound

/-- Get of src/unnamed/part_000: format the key, try it verbatim as a top
key, honour the findByPath variadic, split on dots and walk. -/
def Config.Get (c : Config) (key : String) (findByPath : List Bool) : GetResult :=
  let fkey := formatKey key
  if fkey = "" then .notFound
  else
    match lookupStr c.data fkey with
    | some v => .found v
    | none =>
      if (match findByPath with | b :: _ => !b | [] => false) then .notFound
      else if !(fkey.data.contains '.') then .notFound
      else
        match splitDots fkey with
        | [] => .notFound
        | topK :: rest =>
          match lookupStr c.data topK with
          | some item => getWalk item rest
          | none => .notFound

/-- The child-walk loop of Get in src/config_get.go: only
map[string]interface{}, map[interface{}]interface{} and []interface{} have
cases; the slice guard is the same (len(arrItem) < i).  In the
[]interface{} case the parse-failure and len(arrItem) < i paths are naked
returns: unlike part_000, they do not reset ok (still true from the topK or
map lookups) and the named result value was never reassigned, so the source
Get returns (nil, true) there, modelled as found vNil. -/
def getWalkCG : Value → List String → GetResult
  | item, [] => .found item
  | item, k :: ks =>
    match item with
    | .vMapS m =>
      match lookupStr m k with
      | some v => getWalkCG v ks
      | none => .notFound
    | .vMapA m =>
      match lookupByStrKey m k with
      | some v => getWalkCG v ks
      | none => .notFound
    | .vArr xs =>
      match seqIndex xs.length k with
      | .bad => .found .vNil
      | .oobFault => .fault
      | .ok i => getWalkCG (xs.getD i (.vStr "")) ks
    | _ => .notFound

/-- Get of src/config_get.go (same shell as the part_000 Get, older walk). -/
def Config.Get' (c : Config) (key : String) (findByPath : List Bool) : GetResult :=
  let fkey := formatKey key
  if fkey = "" then .notFound
  else
    match lookupStr c.data fkey with
    | some v => .found v
    | none =>
      if (match findByPath with | b :: _ => !b | [] => false) then .notFound
      else if !(fkey.data.contains '.') then .notFound
      else
        match splitDots fkey with
        | [] => .notFound
        | topK :: rest =>
          match lookupStr c.data topK with
          | some item => getWalkCG item rest
          | none => .notFound

/-- os.Getenv over the modelled process environment ("" when unset). -/
def getenv (env : List (String × String)) (name : String) : String :=
  (lookupStr env name).getD ""

/-- A character of the regexp class [\w-| ] in the token pattern. -/
def isEnvChar (ch : Char) : Bool :=
  ch.isAlphanum || ch = '_' || ch = '-' || ch = '|' || ch = ' '

/-- Scan a token body after "${": take class characters until the closing
brace; none when the body is empty, the string ends, or a character outside
the class appears before the brace.  Returns the reversed body and the tail
after the brace. -/
def grabBody : List Char → List Char → Option (List Char × List Char)
  | [], _ => none
  | ch :: rest, acc =>
    if ch = '}' then (if acc.isEmpty then none else some (acc, rest))
    else if isEnvChar ch then grabBody rest (ch :: acc)
    else none

/-- envRegex.FindAllString(val, -1) for envRegex = \$\{([\w-| ]+)\}: the
leftmost-first non-overlapping full matches, each returned as the complete
token text.  After a failed attempt the scan resumes one character past the
dollar, as the regexp engine does.  Fuel is the remaining length (every step
consumes at least one character). -/
def findEnvTokensGo : Nat → List Char → List String
  | 0, _ => []
  | fuel + 1, l =>
    match l with
    | [] => []
    | ch :: more =>
      if ch = '$' then
        match more with
        | '{' :: rest =>
          match grabBody rest [] with
          | some (body, tail) =>
            String.mk ('$' :: '{' :: (body.reverse ++ ['}'])) :: findEnvTokensGo fuel tail
          | none => findEnvTokensGo fuel more
        | _ => findEnvTokensGo fuel more
      else findEnvTokensGo fuel more

/-- All token matches of the environment-variable pattern in a string. -/
def findEnvTokens (l : List Char) : List String :=
  findEnvTokensGo l.length l

/-- One replacement pair attempt of strings.Replacer at the current position:
the old strings are compared in argument order. -/
def tryMatch : List (String × String) → List Char → Option (String × Nat)
  | [], _ => none
  | (o, n) :: rest, s =>
    if !o.data.isEmpty && o.data.isPrefixOf s then some (n, o.data.length)
    else tryMatch rest s

/-- strings.Replacer.Replace: left to right, non-overlapping, no rescan of
replacement text.  Fuel is the input length (a match consumes at least one
character, since every old string here is a non-empty token). -/
def replLoop (pairs : List (String × String)) : Nat → List Char → List Char
  | 0, s => s
  | _ + 1, [] => []
  | fuel + 1, ch :: rest =>
    match tryMatch pairs (ch :: rest) with
    | some (n, k) => n.data ++ replLoop pairs fuel ((ch :: rest).drop k)
    | none => ch :: replLoop pairs fuel rest

/-- strings.NewReplacer(oldNew...).Replace(s). -/
def Replace (pairs : List (String × String)) (s : String) : String :=
  String.mk (replLoop pairs s.data.length s.data)

/-- parseEnvValue of src/unnamed/part_000: fast path when no "${" occurs,
find all token matches, resolve each (two parts: trimmed name and default;
one part: the name, with the literal token text as default), look the name up
in the environment, empty resolves to the default, then one textual
replacement pass over the whole value. -/
def Config.parseEnvValue (c : Config) (val : String) : String :=
  if !containsSeq "$\x7b".data val.data then val
  else
    let vars := findEnvTokens val.data
    if vars.isEmpty then val
    else
      let oldNew := vars.map (fun fVar =>
        let body := (fVar.data.drop 2).dropLast
        let ss := splitN2 '|' body
        let nd :=
          match ss with
          | [a, b] => (trimChars isSpaceChar (String.mk a), trimChars isSpaceChar (String.mk b))
          | a :: _ => (String.mk a, fVar)
          | [] => (String.mk [], fVar)
        let envVal := getenv c.env nd.1
        (fVar, if envVal = "" then nd.2 else envVal))
      Replace oldNew val

/-- The cache-population tail of String in src/unnamed/part_000: on success,
when caching is enabled, store the value under the key as given. -/
def finishStr (c : Config) (key value : String) : PRes String × Config :=
  if c.opts.EnableCache then
    (.ret value true, { c with strCache := mapSet c.strCache key value })
  else (.ret value true, c)

/-- The coercion body of String in src/unnamed/part_000 (everything after
the cache probe): call Get, stringify bool/integer/string raw values, apply
environment interpolation to strings when ParseEnv is set, fail on any other
shape. -/
def stringCoerce (c : Config) (key : String) : PRes String × Config :=
  match c.Get key [] with
  | .fault => (.fault, c)
  | .notFound => (.ret "" false, c)
  | .found val =>
    match val with
    | .vBool b => finishStr c key (sprintV (.vBool b))
    | .vInt n => finishStr c key (sprintV (.vInt n))
    | .vStr s =>
      let value := sprintV (.vStr s)
      let value := if c.opts.ParseEnv then c.parseEnvValue value else value
      finishStr c key value
    | _ => (.ret "" false, c)

/-- The resolve path of String: bump the ghost resolution counter, then run
the coercion body. -/
def stringResolve (c : Config) (key : String) : PRes String × Config :=
  stringCoerce { c with walks := c.walks + 1 } key

/-- String of src/unnamed/part_000 (renamed StringAcc here: the source name
collides with the String type inside later signatures): probe the per-kind
cache (only consulted when caching is enabled and the cache map is
non-empty), else resolve. -/
def Config.StringAcc (c : Config) (key : String) : PRes String × Config :=
  if c.opts.EnableCache && !c.strCache.isEmpty then
    match lookupStr c.strCache key with
    | some v => (.ret v true, c)
    | none => stringResolve c key
  else stringResolve c key

/-- Int of src/unnamed/part_000 (renamed IntAcc here: the source name
collides with the Int type inside later signatures): resolve as String, then
strconv.Atoi. -/
def Config.IntAcc (c : Config) (key : String) : PRes Int × Config :=
  match c.StringAcc key with
  | (.fault, c) => (.fault, c)
  | (.ret _ false, c) => (.ret 0 false, c)
  | (.ret raw true, c) =>
    match atoi? raw with
    | some v => (.ret v true, c)
    | none => (.ret 0 false, c)

/-- Int64 of src/unnamed/part_000: on ok, return int64(intVal) with ok=true
(int widening is value preserving); otherwise the named zero returns. -/
def Config.Int64 (c : Config) (key : String) : PRes Int × Config :=
  match c.IntAcc key with
  | (.fault, c) => (.fault, c)
  | (.ret v true, c) => (.ret v true, c)
  | (.ret _ false, c) => (.ret 0 false, c)

/-- The element loop of Ints in src/unnamed/part_000 over a []interface{}:
stringify and Atoi each element; on the first failure the function returns
with ok=false and the named return arr holding what was appended so far. -/
def intsLoop (acc : List Int) : List Value → PRes (List Int)
  | [] => .ret acc true
  | v :: rest =>
    match atoi? (sprintV v) with
    | some iv => intsLoop (acc ++ [iv]) rest
    | none => .ret acc false

/-- Ints of src/unnamed/part_000: a []int raw value passes through, a
[]interface{} goes through the element loop, anything else fails. -/
def Config.Ints (c : Config) (key : String) : PRes (List Int) :=
  match c.Get key [] with
  | .fault => .fault
  | .notFound => .ret [] false
  | .found val =>
    match val with
    | .vIntArr xs => .ret xs true
    | .vArr xs => intsLoop [] xs
    | _ => .ret [] false

/-- The cache-population tail of Strings in src/unnamed/part_000. -/
def finishArr (c : Config) (key : String) (arr : List String) : PRes (List String) × Config :=
  if c.opts.EnableCache then
    (.ret arr true, { c with sArrCache := mapSet c.sArrCache key arr })
  else (.ret arr true, c)

/-- The coercion body of Strings in src/unnamed/part_000: a []string raw
value passes through, a []interface{} is stringified elementwise, anything
else fails. -/
def stringsCoerce (c : Config) (key : String) : PRes (List String) × Config :=
  match c.Get key [] with
  | .fault => (.fault, c)
  | .notFound => (.ret [] false, c)
  | .found val =>
    match val with
    | .vStrArr xs => finishArr c key xs
    | .vArr xs => finishArr c key (xs.map sprintV)
    | _ => (.ret [] false, c)

/-- The resolve path of Strings: bump the counter, then coerce. -/
def stringsResolve (c : Config) (key : String) : PRes (List String) × Config :=
  stringsCoerce { c with walks := c.walks + 1 } key

/-- Strings of src/unnamed/part_000: cache probe, else resolve. -/
def Config.Strings (c : Config) (key : String) : PRes (List String) × Config :=
  if c.opts.EnableCache && !c.sArrCache.isEmpty then
    match lookupStr c.sArrCache key with
    | some arr => (.ret arr true, c)
    | none => stringsResolve c key
  else stringsResolve c key

/-- The cache-population tail of StringMap in src/unnamed/part_000. -/
def finishMap (c : Config) (key : String) (mp : List (String × String)) :
    PRes (List (String × String)) × Config :=
  if c.opts.EnableCache then
    (.ret mp true, { c with sMapCache := mapSet c.sMapCache key mp })
  else (.ret mp true, c)

/-- The coercion body of StringMap in src/unnamed/part_000: a
map[string]string passes through, the two generic map shapes have keys and
values stringified, anything else fails. -/
def stringMapCoerce (c : Config) (key : String) : PRes (List (String × String)) × Config :=
  match c.Get key [] with
  | .fault => (.fault, c)
  | .notFound => (.ret [] false, c)
  | .found val =>
    match val with
    | .vStrMap m => finishMap c key m
    | .vMapS m => finishMap c key (m.map (fun p => (p.1, sprintV p.2)))
    | .vMapA m => finishMap c key (m.map (fun p => (sprintV p.1, sprintV p.2)))
    | _ => (.ret [] false, c)

/-- The resolve path of StringMap: bump the counter, then coerce. -/
def stringMapResolve (c : Config) (key : String) : PRes (List (String × String)) × Config :=
  stringMapCoerce { c with walks := c.walks + 1 } key

/-- StringMap of src/unnamed/part_000: cache probe, else resolve. -/
def Config.StringMap (c : Config) (key : String) : PRes (List (String × String)) × Config :=
  if c.opts.EnableCache && !c.sMapCache.isEmpty then
    match lookupStr c.sMapCache key with
    | some mp => (.ret mp true, c)
    | none => stringMapResolve c key
  else stringMapResolve c key

/-- Result of Structure: the (possibly rewritten) caller target and the
returned error, or a propagated panic from Get. -/
inductive StructResult where
  | ret (target : Value) (err : Option String)
  | fault

/-- The encode-then-decode tail of Structure.  The source reads:
  blob, err := JSONEncoder(data)   // the short declaration shadows the
  if err != nil { return err }     //   named return err inside the if block
  err = JSONDecoder(blob, v)       // assigns the shadowed err
so an encoder error is returned explicitly, but a decoder error is assigned
to the inner err and the naked return yields the outer err, which is nil.
The decoder takes and returns the target, modelling json.Unmarshal writing
through the pointer, with an error alongside. -/
def structureTail (data : Value) (JSONEncoder : Value → Except String Value)
    (JSONDecoder : Value → Value → Value × Option String) (v : Value) : StructResult :=
  match JSONEncoder data with
  | .error e => .ret v (some e)
  | .ok blob =>
    let dres := JSONDecoder blob v
    .ret dres.1 none

/-- Structure of src/unnamed/part_000: an empty key maps the entire value
store; otherwise resolve the key and, when found, run the round trip.  The
serializer pair is the package-level JSONEncoder / JSONDecoder variable pair
of the repository, passed here as parameters. -/
def Config.Structure (c : Config) (key : String)
    (JSONEncoder : Value → Except String Value)
    (JSONDecoder : Value → Value → Value × Option String) (v : Value) : StructResult :=
  if key = "" then structureTail (.vMapS c.data) JSONEncoder JSONDecoder v
  else
    match c.Get key [] with
    | .fault => .fault
    | .notFound => .ret v none
    | .found data => structureTail data JSONEncoder JSONDecoder v

/-- GetString of src/config_get.go: resolve via the older Get, stringify
bool/int/int64 and string raw values; environment interpolation is applied
only when ParseEnv is set and the value begins with the two characters $ and
left brace, by trimming the characters of the cutset from both ends and
splitting on the first pipe. -/
def Config.GetString (c : Config) (key : String) : PRes String :=
  match c.Get' key [] with
  | .fault => .fault
  | .notFound => .ret "" false
  | .found val =>
    match val with
    | .vBool b => .ret (sprintV (.vBool b)) true
    | .vInt n => .ret (sprintV (.vInt n)) true
    | .vStr s =>
      let value := sprintV (.vStr s)
      if c.opts.ParseEnv && "$\x7b".data.isPrefixOf value.data then
        let str := trimChars (fun ch => ch = '$' || ch = '{' || ch = '}')
          (trimChars isSpaceChar value)
        let ss := splitN2 '|' str.data
        let nd :=
          match ss with
          | [a, b] => (trimChars isSpaceChar (String.mk a), trimChars isSpaceChar (String.mk b))
          | a :: _ => (String.mk a, "")
          | [] => (String.mk [], "")
        let ev := getenv c.env nd.1
        .ret (if ev = "" then nd.2 else ev) true
      else .ret value true
    | _ => .ret "" false

/-- GetInt of src/config_get.go: resolve as GetString, then strconv.Atoi.
The source reads:
  if value, err := strconv.Atoi(rawVal); err == nil { return value, true }
  return
The if-scoped value and err shadow the named returns, so on an Atoi failure
the naked return yields the named (value, ok) = (0, true): ok was assigned
true by the successful GetString and is never reset. -/
def Config.GetInt (c : Config) (key : String) : PRes Int :=
  match c.GetString key with
  | .fault => .fault
  | .ret _ false => .ret 0 false
  | .ret raw true =>
    match atoi? raw with
    | some v => .ret v true
    | none => .ret 0 true

/-- GetInt64 of src/config_get.go.  The source reads:
  if intVal, ok := c.GetInt(key); ok { value = int64(intVal) }
  return
The if-scoped ok shadows the named return ok, which is never assigned, so on
a successful GetInt the function returns (int64(intVal), false). -/
def Config.GetInt64 (c : Config) (key : String) : PRes Int :=
  match c.GetInt key with
  | .fault => .fault
  | .ret v true => .ret v false
  | .ret _ false => .ret 0 false

/-
Fixtures used by the claim theorems below.
-/

/-- Options with everything off. -/
def opts0 : Options := ⟨false, false, false⟩

/-- Options with environment interpolation on. -/
def optsEnv : Options := ⟨false, false, true⟩

/-- Options with caching on. -/
def optsCache : Options := ⟨false, true, false⟩

/-- A fresh Config: empty caches, zero resolution counter. -/
def mkCfg (d : List (String × Value)) (o : Options) (e : List (String × String)) : Config :=
  ⟨d, o, e, [], [], [], 0⟩

/-- Store holding a three-element heterogeneous sequence under "arr". -/
def cfgArr : Config := mkCfg [("arr", .vArr [.vInt 1, .vInt 2, .vInt 3])] opts0 []

/-- Store holding the numeric string "23" under "age". -/
def cfgAge : Config := mkCfg [("age", .vStr "23")] opts0 []

/-- An identity serializer: every value encodes to itself. -/
def encId : Value → Except String Value := fun v => .ok v

/-- A serializer that always fails. -/
def encFail : Value → Except String Value := fun _ => .error "encode error"

/-- A deserializer that rewrites the target to the decoded blob. -/
def decRep : Value → Value → Value × Option String := fun b _ => (b, none)

/-- A deserializer that always fails, leaving the target as it was. -/
def decFail : Value → Value → Value × Option String := fun _ t => (t, some "decode error")

/-- C1: the claim says every accessor and Get degrade to ok=false on invalid
input and never cause a runtime fault.  The code violates this: on the store
{"arr": [1, 2, 3]} the key "arr.-1" parses as the index -1, passes the
guard len(typeData) < i (3 < -1 is false), and the subsequent typeData[-1]
is an out-of-range slice access, a Go runtime panic; the String accessor
propagates it.  The spec (sections 7 and 9) is clearly the intent and the
guard a known slip, so this is a code bug, witnessed here by evaluating the
embedded code at the failing input. -/
theorem c1_negative_index_faults :
    cfgArr.Get "arr.-1" [] = .fault ∧ (cfgArr.StringAcc "arr.-1").1 = .fault :=
  ⟨rfl, rfl⟩

/-- C2: the claim says an index not strictly less than the length fails with
ok=false, in particular when i = n.  The code violates exactly the i = n
case: the guard is len(typeData) < i, so "arr.3" on a three-element sequence
reaches typeData[3] and panics, while i > n and parse failures do return
ok=false and a valid index descends correctly.  The spec flags this
off-by-one as a known original-implementation edge case, so this is a code
bug. -/
theorem c2_sequence_index_boundary :
    cfgArr.Get "arr.2" [] = .found (.vInt 3) ∧
    cfgArr.Get "arr.x" [] = .notFound ∧
    cfgArr.Get "arr.4" [] = .notFound ∧
    cfgArr.Get "arr.3" [] = .fault :=
  ⟨rfl, rfl, rfl, rfl⟩

/-- C3 counterexample: the claim includes the string-keyed typed map of
integers (map[string]int, produced by Set) among the shapes Get descends
through, but the walk switch in src/unnamed/part_000 has no case for it, so
it falls to the default and fails even on a present key. -/
theorem c3_intmap_descent_fails :
    (mkCfg [("m", .vIntMap [("a", 1)])] opts0 []).Get "m.a" [] = .notFound ∧
    (mkCfg [("m", .vIntMap [("a", 1)])] opts0 []).Get "m.a" [] ≠ .found (.vInt 1) :=
  ⟨rfl, fun h => nomatch h⟩

/-- C3 (amended): Get descends through every supported container shape other
than the string-keyed typed integer map - string-keyed generic map,
arbitrary-keyed generic map, string-keyed typed map of strings, homogeneous
typed sequences of integers and of strings, and the heterogeneous generic
sequence - returning the child on a present key or in-range index. -/
theorem c3_descends_supported_shapes (v : Value) (s : String) (n : Int) :
    (mkCfg [("t", .vMapS [("k", v)])] opts0 []).Get "t.k" [] = .found v ∧
    (mkCfg [("t", .vMapA [(.vStr "k", v)])] opts0 []).Get "t.k" [] = .found v ∧
    (mkCfg [("t", .vStrMap [("k", s)])] opts0 []).Get "t.k" [] = .found (.vStr s) ∧
    (mkCfg [("t", .vIntArr [n])] opts0 []).Get "t.0" [] = .found (.vInt n) ∧
    (mkCfg [("t", .vStrArr [s])] opts0 []).Get "t.0" [] = .found (.vStr s) ∧
    (mkCfg [("t", .vArr [v])] opts0 []).Get "t.0" [] = .found v :=
  ⟨rfl, rfl, rfl, rfl, rfl, rfl⟩

/-- C4: the claim says Structure returns a non-nil error whenever either
direction of the round trip fails.  The code violates the decode direction:
inside Structure, "blob, err := JSONEncoder(data)" shadows the named return
err, so the later "err = JSONDecoder(blob, v)" assigns the shadowed variable
and the naked return yields nil.  At the failing input (key "a" holding
"x", a decoder that fails) the embedded code returns no error, while an
encoder failure is returned correctly.  The assignment of the decoder error
shows returning it was the intent, so this is a code bug. -/
theorem c4_decode_error_swallowed :
    (mkCfg [("a", .vStr "x")] opts0 []).Structure "a" encId decFail (.vStr "t0")
      = .ret (.vStr "t0") none ∧
    (mkCfg [("a", .vStr "x")] opts0 []).Structure "a" encFail decRep (.vStr "t0")
      = .ret (.vStr "t0") (some "encode error") :=
  ⟨rfl, rfl⟩

/-- C8: the claim says the 64-bit accessor widens the integer accessor on
both files.  Int64 of src/unnamed/part_000 does (returns (int64(v), true)
and (0, false) respectively), but GetInt64 of src/config_get.go reads
"if intVal, ok := c.GetInt(key); ok { value = int64(intVal) }; return":
the if-scoped ok shadows the named return ok, which therefore stays false
even when GetInt succeeds.  At the failing input {"age": "23"} GetInt
returns (23, true) while GetInt64 returns (23, false); at {"age": "abc"}
GetInt itself returns (0, true) (its if-scoped value/err shadow the named
returns, so the naked return keeps ok true after a failed Atoi) while
GetInt64 returns (0, false).  The assignment of value shows propagating
success was the intent, so this is a code bug. -/
theorem c8_getint64_drops_ok :
    cfgAge.GetInt "age" = .ret 23 true ∧
    cfgAge.GetInt64 "age" = .ret 23 false ∧
    (mkCfg [("age", .vStr "abc")] opts0 []).GetInt "age" = .ret 0 true ∧
    (mkCfg [("age", .vStr "abc")] opts0 []).GetInt64 "age" = .ret 0 false ∧
    (cfgAge.IntAcc "age").1 = .ret 23 true ∧
    (cfgAge.Int64 "age").1 = .ret 23 true :=
  ⟨rfl, rfl, rfl, rfl, rfl, rfl⟩

/-- C10 counterexample: the claim covers every key on which Get returns
ok=false, including empty-after-trim keys.  For the literal empty key, Get
returns ok=false (invalid key) but Structure does not call Get at all: it
serializes the entire value store into the target, modifying it. -/
theorem c10_empty_key_maps_whole_store :
    (mkCfg [("a", .vInt 1)] opts0 []).Get "" [] = .notFound ∧
    (mkCfg [("a", .vInt 1)] opts0 []).Structure "" encId decRep (.vStr "t0")
      = .ret (.vMapS [("a", .vInt 1)]) none ∧
    Value.vMapS [("a", .vInt 1)] ≠ .vStr "t0" :=
  ⟨rfl, rfl, fun h => nomatch h⟩

/-- C10 (amended): for every non-empty key on which Get returns ok=false,
Structure returns a nil error and leaves the caller-supplied target
completely unmodified, for any serializer pair; only the literal empty key
is excluded, since Structure then maps the entire store instead of calling
Get. -/
theorem c10_not_found_leaves_target (c : Config) (key : String)
    (enc : Value → Except String Value) (dec : Value → Value → Value × Option String)
    (v : Value) (hkey : key ≠ "") (hget : c.Get key [] = .notFound) :
    c.Structure key enc dec v = .ret v none := by
  unfold Config.Structure
  rw [if_neg hkey, hget]

-- Witness for C10 at a concrete missing key.
theorem c10_not_found_leaves_target_witness :
    "miss" ≠ "" ∧ (mkCfg [("a", .vInt 1)] opts0 []).Get "miss" [] = .notFound ∧
    (mkCfg [("a", .vInt 1)] opts0 []).Structure "miss" encId decRep (.vStr "t0")
      = .ret (.vStr "t0") none :=
  ⟨by decide, rfl, c10_not_found_leaves_target _ "miss" _ _ _ (by decide) rfl⟩

/-- Rebuilding a string from its character data is the identity. -/
theorem string_mk_data (s : String) : String.mk s.data = s := rfl

/-- An element of a heterogeneous sequence that stringifies and parses as a
base-10 integer. -/
def parsesAsInt (v : Value) : Bool := (atoi? (sprintV v)).isSome

/-- The integers parsed from the longest prefix of elements that all parse. -/
def parsedIntPart (xs : List Value) : List Int :=
  (xs.takeWhile parsesAsInt).filterMap (fun v => atoi? (sprintV v))

/-- The element loop of Ints stops at the first non-parsing element and
returns the accumulator extended by exactly the parsed prefix, with ok=false. -/
theorem intsLoop_first_failure (xs : List Value) (acc : List Int)
    (hfail : xs.all parsesAsInt = false) :
    intsLoop acc xs = .ret (acc ++ parsedIntPart xs) false := by
  induction xs generalizing acc with
  | nil => simp at hfail
  | cons v rest ih =>
    rw [List.all_cons] at hfail
    cases hv : atoi? (sprintV v) with
    | none =>
      have hp : parsesAsInt v = false := by simp [parsesAsInt, hv]
      simp only [intsLoop, hv]
      simp [parsedIntPart, List.takeWhile_cons, hp]
    | some iv =>
      have hp : parsesAsInt v = true := by simp [parsesAsInt, hv]
      have hrest : rest.all parsesAsInt = false := by
        rw [hp] at hfail; simpa using hfail
      simp only [intsLoop, hv]
      rw [ih _ hrest]
      simp [parsedIntPart, List.takeWhile_cons, hp, hv]

/-- C7 counterexample: the claim says a failing element leaves no partial
result, the returned sequence being empty/nil.  On the store
{"a": [1, 2, "x"]} the accessor does return ok=false, but the named return
slice already holds the two elements appended before the failure, so the
returned sequence is [1, 2], not empty. -/
theorem c7_partial_prefix_returned :
    (mkCfg [("a", .vArr [.vInt 1, .vInt 2, .vStr "x"])] opts0 []).Ints "a"
      = .ret [1, 2] false ∧
    ([1, 2] : List Int) ≠ [] :=
  ⟨rfl, by decide⟩

/-- C7 (amended): for every key resolving to a heterogeneous sequence with
some element that does not stringify-and-parse as a base-10 integer, Ints
returns ok=false, aborting at the first failing element; the returned slice
holds exactly the integers parsed before that element (a possibly non-empty
prefix), not the full conversion and not necessarily nil. -/
theorem c7_prefix_on_failure (c : Config) (key : String) (xs : List Value)
    (hget : c.Get key [] = .found (.vArr xs))
    (hfail : xs.all parsesAsInt = false) :
    c.Ints key = .ret (parsedIntPart xs) false := by
  unfold Config.Ints
  rw [hget]
  simpa using intsLoop_first_failure xs [] hfail

-- Witness for C7 at the concrete store {"a": [1, 2, "x"]}.
theorem c7_prefix_on_failure_witness :
    (mkCfg [("a", .vArr [.vInt 1, .vInt 2, .vStr "x"])] opts0 []).Ints "a"
      = .ret (parsedIntPart [.vInt 1, .vInt 2, .vStr "x"]) false :=
  c7_prefix_on_failure _ "a" _ rfl (by decide)

/-- Go map assignment makes the assigned key readable. -/
theorem lookupStr_mapSet_self {α : Type} (m : List (String × α)) (k : String) (v : α) :
    lookupStr (mapSet m k v) k = some v := by
  induction m with
  | nil => simp [mapSet, lookupStr]
  | cons p rest ih =>
    obtain ⟨k2, v2⟩ := p
    by_cases h : k2 = k <;> simp [mapSet, lookupStr, h, ih]

/-- A map with a readable key is non-empty. -/
theorem lookupStr_ne_nil {α : Type} {m : List (String × α)} {k : String} {v : α}
    (h : lookupStr m k = some v) : m.isEmpty = false := by
  cases m with
  | nil => simp [lookupStr] at h
  | cons p rest => rfl

/-- With caching enabled, the tail of String stores the value it returns. -/
theorem finishStr_eq (c : Config) (key value : String) (hc : c.opts.EnableCache = true) :
    finishStr c key value
      = (.ret value true, { c with strCache := mapSet c.strCache key value }) := by
  unfold finishStr; rw [hc]; simp

/-- A successful coercion body of String leaves its returned value readable
in the string cache and does not change the options. -/
theorem stringCoerce_ok_caches (c : Config) (key v : String)
    (hc : c.opts.EnableCache = true)
    (h : (stringCoerce c key).1 = .ret v true) :
    lookupStr (stringCoerce c key).2.strCache key = some v ∧
    (stringCoerce c key).2.opts = c.opts := by
  cases hg : c.Get key [] with
  | fault =>
    have hsc : stringCoerce c key = (.fault, c) := by unfold stringCoerce; rw [hg]
    rw [hsc] at h; simp at h
  | notFound =>
    have hsc : stringCoerce c key = (.ret "" false, c) := by unfold stringCoerce; rw [hg]
    rw [hsc] at h; simp at h
  | found val =>
    cases val with
    | vNil =>
      have hsc : stringCoerce c key = (.ret "" false, c) := by unfold stringCoerce; rw [hg]
      rw [hsc] at h; simp at h
    | vBool b =>
      have hsc : stringCoerce c key = finishStr c key (sprintV (.vBool b)) := by
        unfold stringCoerce; rw [hg]
      rw [finishStr_eq _ _ _ hc] at hsc
      rw [hsc] at h ⊢
      simp at h ⊢
      rw [h]
      exact lookupStr_mapSet_self _ _ _
    | vInt n =>
      have hsc : stringCoerce c key = finishStr c key (sprintV (.vInt n)) := by
        unfold stringCoerce; rw [hg]
      rw [finishStr_eq _ _ _ hc] at hsc
      rw [hsc] at h ⊢
      simp at h ⊢
      rw [h]
      exact lookupStr_mapSet_self _ _ _
    | vStr s =>
      have hsc : stringCoerce c key = finishStr c key
          (if c.opts.ParseEnv then c.parseEnvValue (sprintV (.vStr s)) else sprintV (.vStr s)) := by
        unfold stringCoerce; rw [hg]
      rw [finishStr_eq _ _ _ hc] at hsc
      rw [hsc] at h ⊢
      simp at h ⊢
      rw [h]
      exact lookupStr_mapSet_self _ _ _
    | vStrMap m =>
      have hsc : stringCoerce c key = (.ret "" false, c) := by unfold stringCoerce; rw [hg]
      rw [hsc] at h; simp at h
    | vIntMap m =>
      have hsc : stringCoerce c key = (.ret "" false, c) := by unfold stringCoerce; rw [hg]
      rw [hsc] at h; simp at h
    | vMapS m =>
      have hsc : stringCoerce c key = (.ret "" false, c) := by unfold stringCoerce; rw [hg]
      rw [hsc] at h; simp at h
    | vMapA m =>
      have hsc : stringCoerce c key = (.ret "" false, c) := by unfold stringCoerce; rw [hg]
      rw [hsc] at h; simp at h
    | vIntArr xs =>
      have hsc : stringCoerce c key = (.ret "" false, c) := by unfold stringCoerce; rw [hg]
      rw [hsc] at h; simp at h
    | vStrArr xs =>
      have hsc : stringCoerce c key = (.ret "" false, c) := by unfold stringCoerce; rw [hg]
      rw [hsc] at h; simp at h
    | vArr xs =>
      have hsc : stringCoerce c key = (.ret "" false, c) := by unfold stringCoerce; rw [hg]
      rw [hsc] at h; simp at h

/-- The resolve path of String inherits the cache-population property. -/
theorem stringResolve_ok_caches (c : Config) (key v : String)
    (hc : c.opts.EnableCache = true)
    (h : (stringResolve c key).1 = .ret v true) :
    lookupStr (stringResolve c key).2.strCache key = some v ∧
    (stringResolve c key).2.opts = c.opts :=
  stringCoerce_ok_caches { c with walks := c.walks + 1 } key v hc h

/-- With caching enabled and the key readable in the string cache, String
answers from the cache and leaves the configuration untouched. -/
theorem stringAcc_cache_hit (c : Config) (key v : String)
    (hc : c.opts.EnableCache = true) (hl : lookupStr c.strCache key = some v) :
    c.StringAcc key = (.ret v true, c) := by
  unfold Config.StringAcc
  rw [hc, lookupStr_ne_nil hl]
  simp [hl]

/-- A successful String call leaves its value readable in the string cache
and preserves the options. -/
theorem stringAcc_ok_caches (c : Config) (key v : String)
    (hc : c.opts.EnableCache = true)
    (h : (c.StringAcc key).1 = .ret v true) :
    lookupStr (c.StringAcc key).2.strCache key = some v ∧
    (c.StringAcc key).2.opts = c.opts := by
  unfold Config.StringAcc at h ⊢
  rw [hc] at h ⊢
  cases he : c.strCache.isEmpty with
  | true =>
    have he2 : c.strCache = [] := by simpa using he
    simp [he2] at h ⊢
    exact stringResolve_ok_caches c key v hc h
  | false =>
    have he2 : ¬(c.strCache = []) := by simpa using he
    simp [he2] at h ⊢
    cases hl : lookupStr c.strCache key with
    | some w =>
      rw [hl] at h
      simp at h
      subst h
      simp [hl]
    | none =>
      rw [hl] at h
      simp at h
      exact stringResolve_ok_caches c key v hc h

/-- With caching enabled, the tail of Strings stores the slice it returns. -/
theorem finishArr_eq (c : Config) (key : String) (arr : List String)
    (hc : c.opts.EnableCache = true) :
    finishArr c key arr
      = (.ret arr true, { c with sArrCache := mapSet c.sArrCache key arr }) := by
  unfold finishArr; rw [hc]; simp

/-- A successful coercion body of Strings leaves its returned slice readable
in the slice cache and does not change the options. -/
theorem stringsCoerce_ok_caches (c : Config) (key : String) (arr : List String)
    (hc : c.opts.EnableCache = true)
    (h : (stringsCoerce c key).1 = .ret arr true) :
    lookupStr (stringsCoerce c key).2.sArrCache key = some arr ∧
    (stringsCoerce c key).2.opts = c.opts := by
  cases hg : c.Get key [] with
  | fault =>
    have hsc : stringsCoerce c key = (.fault, c) := by unfold stringsCoerce; rw [hg]
    rw [hsc] at h; simp at h
  | notFound =>
    have hsc : stringsCoerce c key = (.ret [] false, c) := by unfold stringsCoerce; rw [hg]
    rw [hsc] at h; simp at h
  | found val =>
    cases val with
    | vNil =>
      have hsc : stringsCoerce c key = (.ret [] false, c) := by unfold stringsCoerce; rw [hg]
      rw [hsc] at h; simp at h
    | vStrArr xs =>
      have hsc : stringsCoerce c key = finishArr c key xs := by
        unfold stringsCoerce; rw [hg]
      rw [finishArr_eq _ _ _ hc] at hsc
      rw [hsc] at h ⊢
      simp at h ⊢
      rw [h]
      exact lookupStr_mapSet_self _ _ _
    | vArr xs =>
      have hsc : stringsCoerce c key = finishArr c key (xs.map sprintV) := by
        unfold stringsCoerce; rw [hg]
      rw [finishArr_eq _ _ _ hc] at hsc
      rw [hsc] at h ⊢
      simp at h ⊢
      rw [h]
      exact lookupStr_mapSet_self _ _ _
    | vBool b =>
      have hsc : stringsCoerce c key = (.ret [] false, c) := by unfold stringsCoerce; rw [hg]
      rw [hsc] at h; simp at h
    | vInt n =>
      have hsc : stringsCoerce c key = (.ret [] false, c) := by unfold stringsCoerce; rw [hg]
      rw [hsc] at h; simp at h
    | vStr s =>
      have hsc : stringsCoerce c key = (.ret [] false, c) := by unfold stringsCoerce; rw [hg]
      rw [hsc] at h; simp at h
    | vStrMap m =>
      have hsc : stringsCoerce c key = (.ret [] false, c) := by unfold stringsCoerce; rw [hg]
      rw [hsc] at h; simp at h
    | vIntMap m =>
      have hsc : stringsCoerce c key = (.ret [] false, c) := by unfold stringsCoerce; rw [hg]
      rw [hsc] at h; simp at h
    | vMapS m =>
      have hsc : stringsCoerce c key = (.ret [] false, c) := by unfold stringsCoerce; rw [hg]
      rw [hsc] at h; simp at h
    | vMapA m =>
      have hsc : stringsCoerce c key = (.ret [] false, c) := by unfold stringsCoerce; rw [hg]
      rw [hsc] at h; simp at h
    | vIntArr xs =>
      have hsc : stringsCoerce c key = (.ret [] false, c) := by unfold stringsCoerce; rw [hg]
      rw [hsc] at h; simp at h

/-- The resolve path of Strings inherits the cache-population property. -/
theorem stringsResolve_ok_caches (c : Config) (key : String) (arr : List String)
    (hc : c.opts.EnableCache = true)
    (h : (stringsResolve c key).1 = .ret arr true) :
    lookupStr (stringsResolve c key).2.sArrCache key = some arr ∧
    (stringsResolve c key).2.opts = c.opts :=
  stringsCoerce_ok_caches { c with walks := c.walks + 1 } key arr hc h

/-- With caching enabled and the key readable in the slice cache, Strings
answers from the cache and leaves the configuration untouched. -/
theorem strings_cache_hit (c : Config) (key : String) (arr : List String)
    (hc : c.opts.EnableCache = true) (hl : lookupStr c.sArrCache key = some arr) :
    c.Strings key = (.ret arr true, c) := by
  unfold Config.Strings
  rw [hc, lookupStr_ne_nil hl]
  simp [hl]

/-- A successful Strings call leaves its slice readable in the slice cache
and preserves the options. -/
theorem strings_ok_caches (c : Config) (key : String) (arr : List String)
    (hc : c.opts.EnableCache = true)
    (h : (c.Strings key).1 = .ret arr true) :
    lookupStr (c.Strings key).2.sArrCache key = some arr ∧
    (c.Strings key).2.opts = c.opts := by
  unfold Config.Strings at h ⊢
  rw [hc] at h ⊢
  cases he : c.sArrCache.isEmpty with
  | true =>
    have he2 : c.sArrCache = [] := by simpa using he
    simp [he2] at h ⊢
    exact stringsResolve_ok_caches c key arr hc h
  | false =>
    have he2 : ¬(c.sArrCache = []) := by simpa using he
    simp [he2] at h ⊢
    cases hl : lookupStr c.sArrCache key with
    | some w =>
      rw [hl] at h
      simp at h
      subst h
      simp [hl]
    | none =>
      rw [hl] at h
      simp at h
      exact stringsResolve_ok_caches c key arr hc h

/-- With caching enabled, the tail of StringMap stores the map it returns. -/
theorem finishMap_eq (c : Config) (key : String) (mp : List (String × String))
    (hc : c.opts.EnableCache = true) :
    finishMap c key mp
      = (.ret mp true, { c with sMapCache := mapSet c.sMapCache key mp }) := by
  unfold finishMap; rw [hc]; simp

/-- A successful coercion body of StringMap leaves its returned map readable
in the map cache and does not change the options. -/
theorem stringMapCoerce_ok_caches (c : Config) (key : String) (mp : List (String × String))
    (hc : c.opts.EnableCache = true)
    (h : (stringMapCoerce c key).1 = .ret mp true) :
    lookupStr (stringMapCoerce c key).2.sMapCache key = some mp ∧
    (stringMapCoerce c key).2.opts = c.opts := by
  cases hg : c.Get key [] with
  | fault =>
    have hsc : stringMapCoerce c key = (.fault, c) := by unfold stringMapCoerce; rw [hg]
    rw [hsc] at h; simp at h
  | notFound =>
    have hsc : stringMapCoerce c key = (.ret [] false, c) := by unfold stringMapCoerce; rw [hg]
    rw [hsc] at h; simp at h
  | found val =>
    cases val with
    | vNil =>
      have hsc : stringMapCoerce c key = (.ret [] false, c) := by unfold stringMapCoerce; rw [hg]
      rw [hsc] at h; simp at h
    | vStrMap m =>
      have hsc : stringMapCoerce c key = finishMap c key m := by
        unfold stringMapCoerce; rw [hg]
      rw [finishMap_eq _ _ _ hc] at hsc
      rw [hsc] at h ⊢
      simp at h ⊢
      rw [h]
      exact lookupStr_mapSet_self _ _ _
    | vMapS m =>
      have hsc : stringMapCoerce c key
          = finishMap c key (m.map (fun p => (p.1, sprintV p.2))) := by
        unfold stringMapCoerce; rw [hg]
      rw [finishMap_eq _ _ _ hc] at hsc
      rw [hsc] at h ⊢
      simp at h ⊢
      rw [h]
      exact lookupStr_mapSet_self _ _ _
    | vMapA m =>
      have hsc : stringMapCoerce c key
          = finishMap c key (m.map (fun p => (sprintV p.1, sprintV p.2))) := by
        unfold stringMapCoerce; rw [hg]
      rw [finishMap_eq _ _ _ hc] at hsc
      rw [hsc] at h ⊢
      simp at h ⊢
      rw [h]
      exact lookupStr_mapSet_self _ _ _
    | vBool b =>
      have hsc : stringMapCoerce c key = (.ret [] false, c) := by unfold stringMapCoerce; rw [hg]
      rw [hsc] at h; simp at h
    | vInt n =>
      have hsc : stringMapCoerce c key = (.ret [] false, c) := by unfold stringMapCoerce; rw [hg]
      rw [hsc] at h; simp at h
    | vStr s =>
      have hsc : stringMapCoerce c key = (.ret [] false, c) := by unfold stringMapCoerce; rw [hg]
      rw [hsc] at h; simp at h
    | vIntMap m =>
      have hsc : stringMapCoerce c key = (.ret [] false, c) := by unfold stringMapCoerce; rw [hg]
      rw [hsc] at h; simp at h
    | vIntArr xs =>
      have hsc : stringMapCoerce c key = (.ret [] false, c) := by unfold stringMapCoerce; rw [hg]
      rw [hsc] at h; simp at h
    | vStrArr xs =>
      have hsc : stringMapCoerce c key = (.ret [] false, c) := by unfold stringMapCoerce; rw [hg]
      rw [hsc] at h; simp at h
    | vArr xs =>
      have hsc : stringMapCoerce c key = (.ret [] false, c) := by unfold stringMapCoerce; rw [hg]
      rw [hsc] at h; simp at h

/-- The resolve path of StringMap inherits the cache-population property. -/
theorem stringMapResolve_ok_caches (c : Config) (key : String) (mp : List (String × String))
    (hc : c.opts.EnableCache = true)
    (h : (stringMapResolve c key).1 = .ret mp true) :
    lookupStr (stringMapResolve c key).2.sMapCache key = some mp ∧
    (stringMapResolve c key).2.opts = c.opts :=
  stringMapCoerce_ok_caches { c with walks := c.walks + 1 } key mp hc h

/-- With caching enabled and the key readable in the map cache, StringMap
answers from the cache and leaves the configuration untouched. -/
theorem stringMap_cache_hit (c : Config) (key : String) (mp : List (String × String))
    (hc : c.opts.EnableCache = true) (hl : lookupStr c.sMapCache key = some mp) :
    c.StringMap key = (.ret mp true, c) := by
  unfold Config.StringMap
  rw [hc, lookupStr_ne_nil hl]
  simp [hl]

/-- A successful StringMap call leaves its map readable in the map cache and
preserves the options. -/
theorem stringMap_ok_caches (c : Config) (key : String) (mp : List (String × String))
    (hc : c.opts.EnableCache = true)
    (h : (c.StringMap key).1 = .ret mp true) :
    lookupStr (c.StringMap key).2.sMapCache key = some mp ∧
    (c.StringMap key).2.opts = c.opts := by
  unfold Config.StringMap at h ⊢
  rw [hc] at h ⊢
  cases he : c.sMapCache.isEmpty with
  | true =>
    have he2 : c.sMapCache = [] := by simpa using he
    simp [he2] at h ⊢
    exact stringMapResolve_ok_caches c key mp hc h
  | false =>
    have he2 : ¬(c.sMapCache = []) := by simpa using he
    simp [he2] at h ⊢
    cases hl : lookupStr c.sMapCache key with
    | some w =>
      rw [hl] at h
      simp at h
      subst h
      simp [hl]
    | none =>
      rw [hl] at h
      simp at h
      exact stringMapResolve_ok_caches c key mp hc h

/-- C9 counterexample: the claim quantifies over every key, but a key whose
first lookup fails is never cached: on an empty store with caching enabled,
the first String call walks the store (resolution counter 1) and the second
call walks it again (counter 2) instead of being satisfied from the cache. -/
theorem c9_miss_rewalks :
    ((mkCfg [] optsCache []).StringAcc "a").2.walks = 1 ∧
    (((mkCfg [] optsCache []).StringAcc "a").2.StringAcc "a").2.walks = 2 :=
  ⟨rfl, rfl⟩

/-- C9 (amended): with caching enabled, for every key on which the cached
accessor (String, Strings, StringMap) succeeds, the first call leaves
exactly the returned value readable in its per-kind cache, and the second
invocation returns the identical result while leaving the configuration -
in particular the ghost resolution counter - unchanged, i.e. it is
satisfied from the cache without re-walking the value store.  Keys on which
the accessor fails are not cached and are re-resolved. -/
theorem c9_cache_idempotent :
    (∀ (c : Config) (key v : String),
      c.opts.EnableCache = true →
      (c.StringAcc key).1 = .ret v true →
      lookupStr (c.StringAcc key).2.strCache key = some v ∧
      (c.StringAcc key).2.StringAcc key = (.ret v true, (c.StringAcc key).2)) ∧
    (∀ (c : Config) (key : String) (arr : List String),
      c.opts.EnableCache = true →
      (c.Strings key).1 = .ret arr true →
      lookupStr (c.Strings key).2.sArrCache key = some arr ∧
      (c.Strings key).2.Strings key = (.ret arr true, (c.Strings key).2)) ∧
    (∀ (c : Config) (key : String) (mp : List (String × String)),
      c.opts.EnableCache = true →
      (c.StringMap key).1 = .ret mp true →
      lookupStr (c.StringMap key).2.sMapCache key = some mp ∧
      (c.StringMap key).2.StringMap key = (.ret mp true, (c.StringMap key).2)) := by
  refine ⟨fun c key v hc h => ?_, fun c key arr hc h => ?_, fun c key mp hc h => ?_⟩
  · obtain ⟨hl, ho⟩ := stringAcc_ok_caches c key v hc h
    exact ⟨hl, stringAcc_cache_hit _ key v (by rw [ho]; exact hc) hl⟩
  · obtain ⟨hl, ho⟩ := strings_ok_caches c key arr hc h
    exact ⟨hl, strings_cache_hit _ key arr (by rw [ho]; exact hc) hl⟩
  · obtain ⟨hl, ho⟩ := stringMap_ok_caches c key mp hc h
    exact ⟨hl, stringMap_cache_hit _ key mp (by rw [ho]; exact hc) hl⟩

-- Witness for C9 at concrete stores for each of the three cached accessors.
theorem c9_cache_idempotent_witness :
    ((mkCfg [("k", .vStr "hello")] optsCache []).opts.EnableCache = true ∧
     lookupStr ((mkCfg [("k", .vStr "hello")] optsCache []).StringAcc "k").2.strCache "k"
       = some "hello" ∧
     ((mkCfg [("k", .vStr "hello")] optsCache []).StringAcc "k").2.StringAcc "k"
       = (.ret "hello" true, ((mkCfg [("k", .vStr "hello")] optsCache []).StringAcc "k").2)) ∧
    (lookupStr ((mkCfg [("k", .vStrArr ["a", "b"])] optsCache []).Strings "k").2.sArrCache "k"
       = some ["a", "b"] ∧
     ((mkCfg [("k", .vStrArr ["a", "b"])] optsCache []).Strings "k").2.Strings "k"
       = (.ret ["a", "b"] true,
          ((mkCfg [("k", .vStrArr ["a", "b"])] optsCache []).Strings "k").2)) ∧
    (lookupStr ((mkCfg [("k", .vStrMap [("x", "y")])] optsCache []).StringMap "k").2.sMapCache "k"
       = some [("x", "y")] ∧
     ((mkCfg [("k", .vStrMap [("x", "y")])] optsCache []).StringMap "k").2.StringMap "k"
       = (.ret [("x", "y")] true,
          ((mkCfg [("k", .vStrMap [("x", "y")])] optsCache []).StringMap "k").2)) := by
  refine ⟨⟨rfl, ?_⟩, ?_, ?_⟩
  · exact c9_cache_idempotent.1 (mkCfg [("k", .vStr "hello")] optsCache []) "k" "hello" rfl rfl
  · exact c9_cache_idempotent.2.1 (mkCfg [("k", .vStrArr ["a", "b"])] optsCache []) "k"
      ["a", "b"] rfl rfl
  · exact c9_cache_idempotent.2.2 (mkCfg [("k", .vStrMap [("x", "y")])] optsCache []) "k"
      [("x", "y")] rfl rfl

/-
Environment-interpolation lemmas for C5 and C6: the regexp scan, the
first-pipe split and the replacement pass, characterized for a value of the
shape prefix + token + suffix whose prefix and suffix are free of dollar
characters (so the value holds exactly one token).
-/

/-- A list is a Boolean prefix of itself followed by anything. -/
theorem isPrefixOf_self_append (l t : List Char) : l.isPrefixOf (l ++ t) = true := by
  induction l with
  | nil => simp [List.isPrefixOf]
  | cons a as ih => simp [List.isPrefixOf, ih]

/-- A non-empty pattern is no prefix of a list with a different head. -/
theorem isPrefixOf_cons_head_ne (a : Char) (as : List Char) (ch : Char) (l : List Char)
    (h : ¬(a = ch)) : (a :: as).isPrefixOf (ch :: l) = false := by
  simp [List.isPrefixOf, h]

/-- The substring scan finds the token opener after a dollar-free prefix. -/
theorem containsSeq_token (pre rest : List Char)
    (hpre : pre.all (fun ch => !(ch = '$')) = true) :
    containsSeq ['$', '{'] (pre ++ '$' :: '{' :: rest) = true := by
  induction pre with
  | nil => simp [containsSeq, List.isPrefixOf]
  | cons ch pre' ih =>
    simp only [List.all_cons, Bool.and_eq_true] at hpre
    obtain ⟨h1, h2⟩ := hpre
    have hch : ¬('$' = ch) := by
      intro h
      rw [← h] at h1
      simp at h1
    simp only [List.cons_append, containsSeq]
    rw [isPrefixOf_cons_head_ne _ _ _ _ hch]
    simp [ih h2]

/-- The body scan consumes a class-character run up to the closing brace. -/
theorem grabBody_spec (body : List Char) (tail acc : List Char)
    (hb : body.all isEnvChar = true) (hne : ¬(body = [] ∧ acc = [])) :
    grabBody (body ++ '}' :: tail) acc = some (body.reverse ++ acc, tail) := by
  induction body generalizing acc with
  | nil =>
    have hacc : ¬(acc = []) := fun h => hne ⟨rfl, h⟩
    simp [grabBody, hacc]
  | cons ch rest ih =>
    simp only [List.all_cons, Bool.and_eq_true] at hb
    obtain ⟨hch, hrest⟩ := hb
    have hne2 : ¬(ch = '}') := by
      intro h
      rw [h] at hch
      simp [isEnvChar] at hch
    simp only [List.cons_append, grabBody, hne2, if_false, hch, if_true]
    simp only [List.append_eq]
    rw [ih _ hrest (by simp)]
    simp

/-- The token scan finds nothing in a dollar-free string, for any fuel. -/
theorem findEnvTokensGo_dollarfree (suf : List Char)
    (hsuf : suf.all (fun ch => !(ch = '$')) = true) :
    ∀ fuel, findEnvTokensGo fuel suf = [] := by
  induction suf with
  | nil => intro fuel; cases fuel <;> rfl
  | cons ch rest ih =>
    intro fuel
    simp only [List.all_cons, Bool.and_eq_true] at hsuf
    obtain ⟨h1, h2⟩ := hsuf
    have hch : ¬(ch = '$') := by
      intro h
      rw [h] at h1
      simp at h1
    cases fuel with
    | zero => rfl
    | succ f =>
      simp only [findEnvTokensGo]
      rw [if_neg hch]
      exact ih h2 f

/-- The token scan over prefix + token + suffix, with enough fuel, yields
exactly the one token. -/
theorem findEnvTokensGo_ctx (body suf : List Char)
    (hb : body.all isEnvChar = true) (hbne : ¬(body = []))
    (hsuf : suf.all (fun ch => !(ch = '$')) = true) :
    ∀ (pre : List Char) (fuel : Nat), pre.all (fun ch => !(ch = '$')) = true →
      pre.length + 1 ≤ fuel →
      findEnvTokensGo fuel (pre ++ '$' :: '{' :: (body ++ '}' :: suf))
        = [String.mk ('$' :: '{' :: (body ++ ['}']))] := by
  intro pre
  induction pre with
  | nil =>
    intro fuel _ hf
    cases fuel with
    | zero => omega
    | succ f =>
      simp only [List.nil_append, findEnvTokensGo, if_true]
      rw [grabBody_spec body suf [] hb (fun h => hbne h.1)]
      simp [findEnvTokensGo_dollarfree suf hsuf f]
  | cons ch pre' ih =>
    intro fuel hall hf
    simp only [List.all_cons, Bool.and_eq_true] at hall
    obtain ⟨h1, h2⟩ := hall
    have hch : ¬(ch = '$') := by
      intro h
      rw [h] at h1
      simp at h1
    cases fuel with
    | zero => omega
    | succ f =>
      simp only [List.cons_append, findEnvTokensGo]
      rw [if_neg hch]
      exact ih f h2 (by simp at hf; omega)

/-- FindAllString over prefix + token + suffix yields exactly the token. -/
theorem findEnvTokens_ctx (pre suf body : List Char)
    (hpre : pre.all (fun ch => !(ch = '$')) = true)
    (hsuf : suf.all (fun ch => !(ch = '$')) = true)
    (hb : body.all isEnvChar = true) (hbne : ¬(body = [])) :
    findEnvTokens (pre ++ '$' :: '{' :: (body ++ '}' :: suf))
      = [String.mk ('$' :: '{' :: (body ++ ['}']))] := by
  unfold findEnvTokens
  apply findEnvTokensGo_ctx body suf hb hbne hsuf pre _ hpre
  simp only [List.length_append, List.length_cons]
  omega

/-- SplitN with limit 2 splits at the first pipe. -/
theorem splitN2Aux_found (name : List Char) (defv : List Char)
    (h : name.all (fun ch => !(ch = '|')) = true) :
    ∀ acc, splitN2Aux '|' (name ++ '|' :: defv) acc = [acc.reverse ++ name, defv] := by
  induction name with
  | nil => intro acc; simp [splitN2Aux]
  | cons ch rest ih =>
    intro acc
    simp only [List.all_cons, Bool.and_eq_true] at h
    obtain ⟨h1, h2⟩ := h
    have hch : ¬(ch = '|') := by
      intro hh
      rw [hh] at h1
      simp at h1
    simp only [List.cons_append, splitN2Aux]
    rw [if_neg hch]
    simp only [List.append_eq]
    rw [ih h2 (ch :: acc)]
    simp

/-- SplitN at the first pipe, from the empty accumulator. -/
theorem splitN2_found (name defv : List Char)
    (h : name.all (fun ch => !(ch = '|')) = true) :
    splitN2 '|' (name ++ '|' :: defv) = [name, defv] := by
  unfold splitN2
  rw [splitN2Aux_found name defv h []]
  simp

/-- SplitN of a pipe-free list is the one-element split. -/
theorem splitN2Aux_none (l : List Char) (h : l.all (fun ch => !(ch = '|')) = true) :
    ∀ acc, splitN2Aux '|' l acc = [acc.reverse ++ l] := by
  induction l with
  | nil => intro acc; simp [splitN2Aux]
  | cons ch rest ih =>
    intro acc
    simp only [List.all_cons, Bool.and_eq_true] at h
    obtain ⟨h1, h2⟩ := h
    have hch : ¬(ch = '|') := by
      intro hh
      rw [hh] at h1
      simp at h1
    simp only [splitN2Aux]
    rw [if_neg hch]
    rw [ih h2 (ch :: acc)]
    simp

/-- SplitN of a pipe-free list, from the empty accumulator. -/
theorem splitN2_none (l : List Char) (h : l.all (fun ch => !(ch = '|')) = true) :
    splitN2 '|' l = [l] := by
  unfold splitN2
  rw [splitN2Aux_none l h []]
  simp

/-- The replacer finds no old string that is not a prefix of the position. -/
theorem tryMatch_single_neg (tok w : String) (s : List Char)
    (h : tok.data.isPrefixOf s = false) :
    tryMatch [(tok, w)] s = none := by
  simp [tryMatch, h]

/-- The replacer matches a non-empty old string prefixing the position. -/
theorem tryMatch_single_pos (tok w : String) (s : List Char)
    (hne : ¬(tok.data = [])) (h : tok.data.isPrefixOf s = true) :
    tryMatch [(tok, w)] s = some (w, tok.data.length) := by
  simp [tryMatch, h, hne]

/-- The replacement pass leaves a dollar-free string unchanged for any fuel
when the only old string starts with a dollar. -/
theorem replLoop_dollarfree (tok w : String) (tokRest : List Char)
    (htok : tok.data = '$' :: tokRest) (suf : List Char)
    (hsuf : suf.all (fun ch => !(ch = '$')) = true) :
    ∀ fuel, replLoop [(tok, w)] fuel suf = suf := by
  induction suf with
  | nil => intro fuel; cases fuel <;> rfl
  | cons ch rest ih =>
    intro fuel
    simp only [List.all_cons, Bool.and_eq_true] at hsuf
    obtain ⟨h1, h2⟩ := hsuf
    have hch : ¬('$' = ch) := by
      intro h
      rw [← h] at h1
      simp at h1
    cases fuel with
    | zero => rfl
    | succ f =>
      have hpref : tok.data.isPrefixOf (ch :: rest) = false := by
        rw [htok]
        exact isPrefixOf_cons_head_ne _ _ _ _ hch
      simp only [replLoop, tryMatch_single_neg tok w _ hpref]
      rw [ih h2 f]

/-- The replacement pass on prefix + old + suffix, with dollar-free prefix
and suffix and an old string starting with a dollar, substitutes once. -/
theorem replLoop_ctx (tok w : String) (tokRest : List Char)
    (htok : tok.data = '$' :: tokRest) (suf : List Char)
    (hsuf : suf.all (fun ch => !(ch = '$')) = true) :
    ∀ (pre : List Char) (fuel : Nat), pre.all (fun ch => !(ch = '$')) = true →
      pre.length + 1 ≤ fuel →
      replLoop [(tok, w)] fuel (pre ++ tok.data ++ suf) = pre ++ (w.data ++ suf) := by
  intro pre
  induction pre with
  | nil =>
    intro fuel _ hf
    cases fuel with
    | zero => omega
    | succ f =>
      have hne : ¬(tok.data = []) := by rw [htok]; simp
      have hpref : tok.data.isPrefixOf (tok.data ++ suf) = true := isPrefixOf_self_append _ _
      simp only [List.nil_append]
      rw [htok]
      simp only [List.cons_append, replLoop]
      simp only [List.append_eq]
      rw [show ('$' :: (tokRest ++ suf)) = tok.data ++ suf by rw [htok]; simp]
      rw [tryMatch_single_pos tok w _ hne hpref]
      simp only []
      rw [List.drop_left]
      rw [replLoop_dollarfree tok w tokRest htok suf hsuf f]
  | cons ch pre' ih =>
    intro fuel hall hf
    simp only [List.all_cons, Bool.and_eq_true] at hall
    obtain ⟨h1, h2⟩ := hall
    have hch : ¬('$' = ch) := by
      intro h
      rw [← h] at h1
      simp at h1
    cases fuel with
    | zero => omega
    | succ f =>
      have hpref : tok.data.isPrefixOf (ch :: (pre' ++ tok.data ++ suf)) = false := by
        rw [htok]
        exact isPrefixOf_cons_head_ne _ _ _ _ hch
      simp only [List.cons_append, List.append_assoc] at hpref ⊢
      simp only [replLoop]
      rw [tryMatch_single_neg tok w _ (by simpa using hpref)]
      have := ih f h2 (by simp at hf; omega)
      simp only [List.append_assoc] at this
      rw [this]

/-- Replacer.Replace on prefix + old + suffix substitutes exactly once. -/
theorem Replace_ctx (tok w : String) (tokRest : List Char)
    (htok : tok.data = '$' :: tokRest) (pre suf : List Char)
    (hpre : pre.all (fun ch => !(ch = '$')) = true)
    (hsuf : suf.all (fun ch => !(ch = '$')) = true) :
    Replace [(tok, w)] (String.mk (pre ++ tok.data ++ suf))
      = String.mk (pre ++ (w.data ++ suf)) := by
  unfold Replace
  rw [replLoop_ctx tok w tokRest htok suf hsuf pre _ hpre]
  rw [htok]
  simp only [List.length_append, List.length_cons]
  omega

/-- Taking a string's characters is the inverse of rebuilding it. -/
theorem string_data_mk (l : List Char) : (String.mk l).data = l := rfl

/-- The value the parseEnvValue loop substitutes for one token with the
given body: split on the first pipe; two parts resolve to the trimmed name
and default, one part to the untrimmed name with the literal token text as
default; an empty or absent environment entry resolves to the default. -/
def envSubst (env : List (String × String)) (body : List Char) : String :=
  let ss := splitN2 '|' body
  let nd :=
    match ss with
    | [a, b] => (trimChars isSpaceChar (String.mk a), trimChars isSpaceChar (String.mk b))
    | a :: _ => (String.mk a, String.mk ('$' :: '{' :: (body ++ ['}'])))
    | [] => (String.mk [], String.mk ('$' :: '{' :: (body ++ ['}'])))
  let envVal := getenv env nd.1
  if envVal = "" then nd.2 else envVal

/-- parseEnvValue on a value holding exactly one token (dollar-free prefix
and suffix) replaces the token by its resolution and nothing else. -/
theorem parseEnvValue_ctx (c : Config) (pre suf body : List Char)
    (hpre : pre.all (fun ch => !(ch = '$')) = true)
    (hsuf : suf.all (fun ch => !(ch = '$')) = true)
    (hb : body.all isEnvChar = true) (hbne : ¬(body = [])) :
    c.parseEnvValue (String.mk (pre ++ '$' :: '{' :: (body ++ '}' :: suf)))
      = String.mk (pre ++ ((envSubst c.env body).data ++ suf)) := by
  have hcont : containsSeq ['$', '{'] (pre ++ '$' :: '{' :: (body ++ '}' :: suf)) = true :=
    containsSeq_token pre _ hpre
  have htoks : findEnvTokens (pre ++ '$' :: '{' :: (body ++ '}' :: suf))
      = [String.mk ('$' :: '{' :: (body ++ ['}']))] :=
    findEnvTokens_ctx pre suf body hpre hsuf hb hbne
  unfold Config.parseEnvValue
  rw [show ("$\x7b".data) = ['$', '{'] from rfl]
  rw [string_data_mk, hcont]
  simp only [Bool.not_true, Bool.false_eq_true, if_false]
  rw [htoks]
  simp only [List.isEmpty_cons, Bool.false_eq_true, if_false]
  simp only [List.map_cons, List.map_nil]
  rw [show (((String.mk ('$' :: '{' :: (body ++ ['}']))).data.drop 2).dropLast) = body by
    rw [string_data_mk]
    simp [List.dropLast_concat]]
  show Replace [(String.mk ('$' :: '{' :: (body ++ ['}'])), envSubst c.env body)] _ = _
  have hrep := Replace_ctx (String.mk ('$' :: '{' :: (body ++ ['}']))) (envSubst c.env body)
    ('{' :: (body ++ ['}'])) rfl pre suf hpre hsuf
  rw [string_data_mk] at hrep
  simp only [List.cons_append, List.append_assoc, List.singleton_append] at hrep
  exact hrep

/-- The environment of a fresh Config is the one it was built with. -/
theorem mkCfg_env (d : List (String × Value)) (o : Options) (e : List (String × String)) :
    (mkCfg d o e).env = e := rfl

/-- Token resolution for a name-pipe-default body: trimmed name looked up,
empty or absent resolving to the trimmed default. -/
theorem envSubst_two_part (env : List (String × String)) (name defv : String)
    (hnp : name.data.all (fun ch => !(ch = '|')) = true) :
    envSubst env (name.data ++ '|' :: defv.data)
      = (if getenv env (trimChars isSpaceChar name) = "" then trimChars isSpaceChar defv
         else getenv env (trimChars isSpaceChar name)) := by
  unfold envSubst
  rw [splitN2_found _ _ hnp]

/-- Token resolution for a default-less body: the untrimmed name looked up,
empty or absent resolving to the literal token text. -/
theorem envSubst_one_part (env : List (String × String)) (name : String)
    (hnp : name.data.all (fun ch => !(ch = '|')) = true) :
    envSubst env name.data
      = (if getenv env name = ""
         then String.mk ('$' :: '{' :: (name.data ++ ['}'])) else getenv env name) := by
  unfold envSubst
  rw [splitN2_none _ hnp]

/-- C5 counterexample: the claim covers every stored string value containing
a ${NAME|default} token and cites both revisions, but GetString of
src/config_get.go applies interpolation only when the value begins with the
token opener: on the value x-space-token with ENV_X bound to v it returns
the value unsubstituted, where the claim (and part_000's String) produce
the substituted text. -/
theorem c5_getstring_skips_inner_token :
    (mkCfg [("key", .vStr "x ${ENV_X|fallback}")] optsEnv [("ENV_X", "v")]).GetString "key"
      = .ret "x ${ENV_X|fallback}" true ∧
    ((mkCfg [("key", .vStr "x ${ENV_X|fallback}")] optsEnv [("ENV_X", "v")]).StringAcc "key").1
      = .ret "x v" true ∧
    ¬(("x ${ENV_X|fallback}" : String) = "x v") :=
  ⟨rfl, rfl, by decide⟩

/-- C5 (amended): for the String accessor of src/unnamed/part_000 with
ParseEnv enabled, every stored string value of the shape prefix + token +
suffix - the token being ${NAME|default} with NAME and default made of word
characters, hyphens and spaces, NAME pipe-free, and the prefix and suffix
free of dollar characters - substitutes: the environment value of the
trimmed NAME when that is non-empty, the trimmed default when NAME is unset
or empty.  The GetString accessor of src/config_get.go interpolates only
values that begin with the token opener and is excluded. -/
theorem c5_env_substitution (pre suf : List Char) (name defv : String)
    (env : List (String × String))
    (hpre : pre.all (fun ch => !(ch = '$')) = true)
    (hsuf : suf.all (fun ch => !(ch = '$')) = true)
    (hn2 : name.data.all isEnvChar = true)
    (hn3 : name.data.all (fun ch => !(ch = '|')) = true)
    (hd : defv.data.all isEnvChar = true) :
    ((mkCfg [("key", .vStr (String.mk
          (pre ++ '$' :: '{' :: ((name.data ++ '|' :: defv.data) ++ '}' :: suf))))]
        optsEnv env).StringAcc "key").1
      = .ret (String.mk (pre ++
          ((if getenv env (trimChars isSpaceChar name) = "" then trimChars isSpaceChar defv
            else getenv env (trimChars isSpaceChar name)).data ++ suf))) true := by
  have hbody : (name.data ++ '|' :: defv.data).all isEnvChar = true := by
    rw [List.all_append, List.all_cons]
    simp [hn2, hd, isEnvChar]
  have hbne : ¬(name.data ++ '|' :: defv.data = []) := by simp
  have h0 : ((mkCfg [("key", .vStr (String.mk
          (pre ++ '$' :: '{' :: ((name.data ++ '|' :: defv.data) ++ '}' :: suf))))]
        optsEnv env).StringAcc "key").1
      = .ret ((mkCfg [("key", .vStr (String.mk
          (pre ++ '$' :: '{' :: ((name.data ++ '|' :: defv.data) ++ '}' :: suf))))]
        optsEnv env).parseEnvValue (String.mk
          (pre ++ '$' :: '{' :: ((name.data ++ '|' :: defv.data) ++ '}' :: suf)))) true := rfl
  rw [h0, parseEnvValue_ctx _ pre suf _ hpre hsuf hbody hbne, mkCfg_env,
    envSubst_two_part env name defv hn3]

-- Witness for C5 at the value "x ${ENV_X|fallback}" with ENV_X bound to "v".
theorem c5_env_substitution_witness :
    ((mkCfg [("key", .vStr "x ${ENV_X|fallback}")] optsEnv [("ENV_X", "v")]).StringAcc "key").1
      = .ret "x v" true := by
  exact c5_env_substitution ['x', ' '] [] "ENV_X" "fallback" [("ENV_X", "v")]
    (by decide) (by decide) (by decide) (by decide) (by decide)

/-- C6 counterexample: the claim says a default-less unset token never
becomes the empty string and cites both revisions, but GetString of
src/config_get.go leaves its default empty in the one-part branch and
returns the empty string for the unset APP_ENV. -/
theorem c6_getstring_empty_for_defaultless :
    (mkCfg [("key", .vStr "${APP_ENV}")] optsEnv []).GetString "key" = .ret "" true ∧
    ¬(("" : String) = "${APP_ENV}") :=
  ⟨rfl, by decide⟩

/-- C6 (amended): for the String accessor of src/unnamed/part_000 with
ParseEnv enabled, every stored string value of the shape prefix + ${NAME} +
suffix (NAME non-empty, of word characters, hyphens and spaces, pipe-free;
prefix and suffix dollar-free) with NAME unset or empty in the environment
round-trips to itself - the token is replaced by its own literal text and
the result is never the empty string.  The GetString accessor of
src/config_get.go instead returns the empty string there. -/
theorem c6_defaultless_token_roundtrip (pre suf : List Char) (name : String)
    (env : List (String × String))
    (hpre : pre.all (fun ch => !(ch = '$')) = true)
    (hsuf : suf.all (fun ch => !(ch = '$')) = true)
    (hn2 : name.data.all isEnvChar = true)
    (hn3 : name.data.all (fun ch => !(ch = '|')) = true)
    (hbne : ¬(name.data = []))
    (hunset : getenv env name = "") :
    ((mkCfg [("key", .vStr (String.mk (pre ++ '$' :: '{' :: (name.data ++ '}' :: suf))))]
        optsEnv env).StringAcc "key").1
      = .ret (String.mk (pre ++ '$' :: '{' :: (name.data ++ '}' :: suf))) true ∧
    ¬(String.mk (pre ++ '$' :: '{' :: (name.data ++ '}' :: suf)) = "") := by
  constructor
  · have h0 : ((mkCfg [("key", .vStr (String.mk (pre ++ '$' :: '{' :: (name.data ++ '}' :: suf))))]
          optsEnv env).StringAcc "key").1
        = .ret ((mkCfg [("key", .vStr (String.mk (pre ++ '$' :: '{' :: (name.data ++ '}' :: suf))))]
          optsEnv env).parseEnvValue
            (String.mk (pre ++ '$' :: '{' :: (name.data ++ '}' :: suf)))) true := rfl
    rw [h0, parseEnvValue_ctx _ pre suf _ hpre hsuf hn2 hbne, mkCfg_env,
      envSubst_one_part env name hn3, if_pos hunset]
    simp only [string_data_mk, List.cons_append, List.append_assoc, List.singleton_append,
      List.nil_append]
  · intro h
    have hd := congrArg String.data h
    simp at hd

-- Witness for C6 at the value "${APP_ENV}" with an empty environment.
theorem c6_defaultless_token_roundtrip_witness :
    ((mkCfg [("key", .vStr "${APP_ENV}")] optsEnv []).StringAcc "key").1
      = .ret "${APP_ENV}" true ∧ ¬(("${APP_ENV}" : String) = "") := by
  exact c6_defaultless_token_roundtrip [] [] "APP_ENV" []
    (by decide) (by decide) (by decide) (by decide) (by decide) rfl
